import Mathlib

/-!
Verification of the transcript-indexing and timestamp-editing core of the
`parasite` vocal sample pack creator (`src/main.rs`).

The Rust source is shallowly embedded below.  Text is modelled as `List Char`
(`str` slices), `std::time::Duration` values as natural numbers of
milliseconds (every duration in the program is built by
`Duration::from_millis` and compared/subtracted at millisecond granularity),
and the signed `i64` millisecond arithmetic of the editors as `Int`
(the program's durations stay far below the `i64` wrap point, so the
unbounded model coincides with the machine arithmetic on every reachable
state).  `u64` arithmetic in `parse_timestamp` wraps, which the model keeps
as an explicit `% 2 ^ 64`.
-/

abbrev Str := List Char

/-- Millisecond ms-difference of two durations, mirroring the branchy
absolute difference in `App::is_same_segment`. -/
def durDiff (a b : Nat) : Nat := if a > b then a - b else b - a

/-- `str::trim`: whitespace stripped from both ends. -/
def trimStr (s : Str) : Str :=
  ((s.dropWhile Char.isWhitespace).reverse.dropWhile Char.isWhitespace).reverse

/-- `str::to_lowercase`, applied characterwise. -/
def lowerStr (s : Str) : Str := s.map Char.toLower

/-- The digit run of `u64::from_str`: one or more decimal digits, failing
on overflow past `2 ^ 64 - 1`. -/
def parseDigits (core : Str) : Option Nat :=
  if core ≠ [] ∧ core.all Char.isDigit = true then
    if core.foldl (fun acc c => acc * 10 + (c.toNat - 48)) 0 < 2 ^ 64 then
      some (core.foldl (fun acc c => acc * 10 + (c.toNat - 48)) 0)
    else none
  else none

/-- `u64::from_str` as used by `str::parse::<u64>()`: an optional leading
`+` sign, then the digit run. -/
def parseU64 (s : Str) : Option Nat :=
  parseDigits (if s.head? = some '+' then s.tail else s)

/-- `str::split` with a single-character pattern (used with `:` and `.`). -/
def splitOnChar (sep : Char) : Str → List Str
  | [] => [[]]
  | c :: rest =>
    if c = sep then [] :: splitOnChar sep rest
    else
      match splitOnChar sep rest with
      | [] => [[c]]
      | h :: t => (c :: h) :: t

/-- Fuel-driven worker for `str::split` with a multi-character pattern:
at each position, either the pattern matches (emit the accumulated piece and
skip the pattern) or one character is shifted into the accumulator.  The fuel
is the remaining input length, which bounds the iteration count. -/
def splitOnListAux (pat : Str) : Nat → Str → Str → List Str
  | _, [], acc => [acc.reverse]
  | 0, _, acc => [acc.reverse]
  | fuel + 1, c :: rest, acc =>
    if pat ≠ [] ∧ pat.isPrefixOf (c :: rest) then
      acc.reverse :: splitOnListAux pat fuel (List.drop (pat.length - 1) rest) []
    else
      splitOnListAux pat fuel rest (c :: acc)

/-- `str::split` with a string pattern (used with the pattern `-->`). -/
def splitOnList (pat : Str) (s : Str) : List Str :=
  splitOnListAux pat s.length s []

/-- `str::contains` with a string pattern: the pattern occurs contiguously
somewhere in the haystack. -/
def containsSub (pat : Str) : Str → Bool
  | [] => pat.isEmpty
  | c :: rest => pat.isPrefixOf (c :: rest) || containsSub pat rest

/-- The `-->` timing-line marker. -/
def arrowPat : Str := "-->".data

/-- `line.contains("-->")`. -/
def containsArrow (l : Str) : Bool := containsSub arrowPat l

/-- `str::split_whitespace` worker: accumulate non-whitespace runs. -/
def splitWsAux : Str → Str → List Str
  | [], [] => []
  | [], acc => [acc.reverse]
  | c :: rest, acc =>
    if c.isWhitespace then
      if acc = [] then splitWsAux rest []
      else acc.reverse :: splitWsAux rest []
    else splitWsAux rest (c :: acc)

/-- `str::split_whitespace`. -/
def splitWs (s : Str) : List Str := splitWsAux s []

/-- `parse_timestamp` from `src/main.rs`: split on `:` expecting exactly
three fields, parse hours and minutes, split the third field on `.`
expecting exactly two subfields, parse seconds and milliseconds; the total
is `u64` millisecond arithmetic (which wraps at `2 ^ 64`). -/
def parse_timestamp (timestamp : Str) : Option Nat :=
  match splitOnChar ':' timestamp with
  | [p0, p1, p2] => do
    let hours ← parseU64 (trimStr p0)
    let minutes ← parseU64 (trimStr p1)
    match splitOnChar '.' p2 with
    | [s0, s1] => do
      let seconds ← parseU64 (trimStr s0)
      let milliseconds ← parseU64 (trimStr s1)
      some ((hours * 3600000 + minutes * 60000 + seconds * 1000 + milliseconds) % 2 ^ 64)
    | _ => none
  | _ => none

/-- `parse_time_range` from `src/main.rs`: split on `-->` expecting exactly
two parts, then parse each trimmed side as a timestamp. -/
def parse_time_range (line : Str) : Option (Nat × Nat) :=
  match splitOnList arrowPat line with
  | [p0, p1] => do
    let start ← parse_timestamp (trimStr p0)
    let stop ← parse_timestamp (trimStr p1)
    some (start, stop)
  | _ => none

/-- One context entry `(text, start_time, end_time)` as stored in
`SearchResult::context_before` / `context_after`. -/
abbrev Ctx := Str × Nat × Nat

/-- `SearchResult` from `src/main.rs`. -/
structure SearchResult where
  file_path : String
  text : Str
  start_time : Nat
  end_time : Nat
  context_before : List Ctx
  context_after : List Ctx
deriving DecidableEq

/-- `DisplayLine` from `src/main.rs`. -/
structure DisplayLine where
  text : Str
  file_path : String
  start_time : Nat
  end_time : Nat
  is_match : Bool
  original_start : Nat
  original_end : Nat
deriving DecidableEq

/-- The mutable interactive state of `App` (the fields the core operations
read and write; the directory configuration is irrelevant to them). -/
structure App where
  search_query : Str
  all_results : List SearchResult
  filtered_results : List SearchResult
  flat_results : List DisplayLine
  selected_idx : Option Nat
  status_message : Str
  context_lines : Nat
deriving DecidableEq

/-- The nearest preceding line containing `-->`:
`lines[0..i].iter().rev().find(|line| line.contains("-->"))`. -/
def findTiming (lines : List Str) (i : Nat) : Option Str :=
  (lines.take i).reverse.find? containsArrow

/-- The candidate context entry at line index `j` in `load_all_results`:
the trimmed line if it is a non-timing, non-empty line whose nearest
preceding timing line parses; `none` otherwise (the entry is skipped). -/
def ctxAt (lines : List Str) (j : Nat) : Option Ctx :=
  match lines.get? j with
  | none => none
  | some lj =>
    let before_line := trimStr lj
    if ¬ containsArrow before_line = true ∧ before_line ≠ [] then
      match findTiming lines j with
      | some timing =>
        match parse_time_range timing with
        | some (ctx_start, ctx_end) => some (before_line, ctx_start, ctx_end)
        | none => none
      | none => none
    else none

/-- The `context_before` gathering loop of `load_all_results`: scan from
`before_idx = i - 1` down to `0` while fewer than 5 entries are collected,
inserting each entry at position 0 of the accumulator.  The argument `j`
stands for `before_idx + 1` (so `j = 0` is loop exit). -/
def collectBefore (lines : List Str) : Nat → List Ctx → List Ctx
  | 0, acc => acc
  | j + 1, acc =>
    if acc.length < 5 then
      match ctxAt lines j with
      | some e => collectBefore lines j (e :: acc)
      | none => collectBefore lines j acc
    else acc

/-- The `context_after` gathering loop of `load_all_results`: scan from
`after_idx = i + 1` upward while in bounds and fewer than 5 entries are
collected, pushing entries at the back.  `fuel` is `lines.length - j`,
which makes the bound check structural. -/
def collectAfter (lines : List Str) : Nat → Nat → List Ctx → List Ctx
  | _, 0, acc => acc
  | j, fuel + 1, acc =>
    if acc.length < 5 then
      match ctxAt lines j with
      | some e => collectAfter lines (j + 1) fuel (acc ++ [e])
      | none => collectAfter lines (j + 1) fuel acc
    else acc

/-- The body of the per-line loop of `load_all_results`: line `i` yields a
`SearchResult` exactly when `i > 0`, the line is not a timing line, is
non-empty after trimming, and its nearest preceding timing line parses. -/
def segAt (lines : List Str) (fp : String) (i : Nat) : Option SearchResult :=
  match lines.get? i with
  | none => none
  | some li =>
    if 0 < i ∧ ¬ containsArrow li = true ∧ trimStr li ≠ [] then
      match findTiming lines i with
      | some timing_line =>
        match parse_time_range timing_line with
        | some (start_time, end_time) =>
          some { file_path := fp
                 text := trimStr li
                 start_time := start_time
                 end_time := end_time
                 context_before := collectBefore lines i []
                 context_after := collectAfter lines (i + 1) (lines.length - (i + 1)) [] }
        | none => none
      | none => none
    else none

/-- The push step of an imperative `for` loop collecting optional values. -/
def pushStep {α β : Type} (f : α → Option β) (acc : List β) (i : α) : List β :=
  match f i with
  | some r => acc ++ [r]
  | none => acc

/-- The per-file portion of `load_all_results`: loop over all line indices
in order, pushing each produced `SearchResult`. -/
def load_file (lines : List Str) (fp : String) : List SearchResult :=
  (List.range lines.length).foldl (pushStep (segAt lines fp)) []

/-- `App::filter_results` (the filtering step): empty query keeps
everything; otherwise split the query on whitespace and keep the results
whose lowercased text contains every lowercased word. -/
def filter_results (search_query : Str) (all_results : List SearchResult) :
    List SearchResult :=
  if search_query = [] then all_results
  else
    let search_words := splitWs search_query
    all_results.filter (fun result =>
      let text_lower := lowerStr result.text
      search_words.all (fun word => containsSub (lowerStr word) text_lower))

/-- `App::is_same_segment`: identical text and both duration differences
strictly below 10 ms. -/
def is_same_segment (text1 : Str) (start1 end1 : Nat) (text2 : Str)
    (start2 end2 : Nat) : Bool :=
  if text1 ≠ text2 then false
  else decide (durDiff start1 start2 < 10) && decide (durDiff end1 end2 < 10)

/-- The `match_segments` snapshot taken at the top of
`App::flatten_results`. -/
def matchSegments (filtered : List SearchResult) : List Ctx :=
  filtered.map (fun r => (r.text, r.start_time, r.end_time))

/-- The `is_also_match` duplicate test of `App::flatten_results`. -/
def isAlsoMatch (ms : List Ctx) (c : Ctx) : Bool :=
  ms.any (fun m => is_same_segment m.1 m.2.1 m.2.2 c.1 c.2.1 c.2.2)

/-- A context-before `DisplayLine`: text prefixed with the upward marker,
times and original times all equal to the entry's own times. -/
def mkUpLine (fp : String) (c : Ctx) : DisplayLine :=
  { text := '↑' :: ' ' :: c.1
    file_path := fp
    start_time := c.2.1
    end_time := c.2.2
    is_match := false
    original_start := c.2.1
    original_end := c.2.2 }

/-- A context-after `DisplayLine`: text prefixed with the downward marker. -/
def mkDownLine (fp : String) (c : Ctx) : DisplayLine :=
  { text := '↓' :: ' ' :: c.1
    file_path := fp
    start_time := c.2.1
    end_time := c.2.2
    is_match := false
    original_start := c.2.1
    original_end := c.2.2 }

/-- The match `DisplayLine` of a result: `is_match = true`, original times
captured from the result's own times. -/
def matchLine (r : SearchResult) : DisplayLine :=
  { text := r.text
    file_path := r.file_path
    start_time := r.start_time
    end_time := r.end_time
    is_match := true
    original_start := r.start_time
    original_end := r.end_time }

/-- The context-before block emitted by `App::flatten_results` for one
result: when `context_lines > 0`, iterate `context_before.iter().rev()`
limited to `context_lines` entries, dropping entries that duplicate a
filtered match.  (The source also computes `ctx_idx = len - 1 - i` and
checks `ctx_idx < len`, which always holds and binds nothing used.) -/
def beforeBlock (ms : List Ctx) (context_lines : Nat) (r : SearchResult) :
    List DisplayLine :=
  if 0 < context_lines then
    ((r.context_before.reverse.take context_lines).filter
        (fun c => ! isAlsoMatch ms c)).map (mkUpLine r.file_path)
  else []

/-- The context-after block emitted by `App::flatten_results` for one
result: when `context_lines > 0`, take up to `context_lines` entries of
`context_after` in stored order, dropping duplicates of filtered matches. -/
def afterBlock (ms : List Ctx) (context_lines : Nat) (r : SearchResult) :
    List DisplayLine :=
  if 0 < context_lines then
    ((r.context_after.take context_lines).filter
        (fun c => ! isAlsoMatch ms c)).map (mkDownLine r.file_path)
  else []

/-- The lines `App::flatten_results` pushes for one result. -/
def resultBlock (ms : List Ctx) (context_lines : Nat) (r : SearchResult) :
    List DisplayLine :=
  beforeBlock ms context_lines r ++ matchLine r :: afterBlock ms context_lines r

/-- `App::flatten_results` as a function of the filtered results and the
context depth: the per-result blocks in filtered order. -/
def flatten_results (filtered : List SearchResult) (context_lines : Nat) :
    List DisplayLine :=
  (filtered.map (resultBlock (matchSegments filtered) context_lines)).flatten

/-- Status text of `adjust_start_time` when the start would go below 0. -/
def msgStartAtMin : Str := "Start time already at minimum (0)".data

/-- Status text of `adjust_start_time` when the start would cross the end. -/
def msgStartExceedsEnd : Str := "Cannot adjust: Start time would exceed end time".data

/-- Status text of `adjust_end_time` when the end would precede the start. -/
def msgEndPrecedesStart : Str := "Cannot adjust: End time would precede start time".data

/-- Status text of `adjust_end_time` when the end would pass `max_end_ms`.
The source renders the bound as seconds with two decimals via float
formatting; the numeric rendering is abstracted here (no claim inspects
it), keeping the dependence on the bound. -/
def msgEndExceedsMax (max_end_ms : Int) : Str :=
  ("Cannot adjust: End time would exceed maximum (" ++ toString max_end_ms
    ++ "ms)").data

/-- Status text of the Esc handler after a successful reset. -/
def msgResetDone : Str := "Timestamps reset to original values.".data

/-- Status text of the Esc handler with no selection. -/
def msgNoLineSelected : Str := "No line selected".data

/-- Success status of `adjust_start_time`, built from the applied delta and
the net offset from the original start. -/
def adjustStartMsg (delta_ms new_ms : Int) (original_start : Nat) : Str :=
  let delta_sign := if 0 ≤ delta_ms then ("+") else ("-")
  let original_to_now : Int := new_ms - (original_start : Int)
  let net_sign := if 0 ≤ original_to_now then ("+") else ("-")
  ("Start time adjusted by " ++ delta_sign ++ toString delta_ms.natAbs
    ++ "ms (" ++ net_sign ++ toString original_to_now.natAbs
    ++ "ms from original)").data

/-- Success status of `adjust_end_time`. -/
def adjustEndMsg (delta_ms new_ms : Int) (original_end : Nat) : Str :=
  let delta_sign := if 0 ≤ delta_ms then ("+") else ("-")
  let original_to_now : Int := new_ms - (original_end : Int)
  let net_sign := if 0 ≤ original_to_now then ("+") else ("-")
  ("End time adjusted by " ++ delta_sign ++ toString delta_ms.natAbs
    ++ "ms (" ++ net_sign ++ toString original_to_now.natAbs
    ++ "ms from original)").data

/-- `App::adjust_start_time`.  Millisecond values are read as `i64`
(`Int` here); the candidate must be nonnegative and must leave more than a
10 ms gap to the end time, otherwise the call rejects with a status message
and no mutation.  With no selection or an out-of-range index (`get?`
failing is the source's `idx < len` test) the state is returned unchanged
(the source's bare `return`). -/
def adjust_start_time (app : App) (delta_ms : Int) : App :=
  match app.selected_idx with
  | none => app
  | some idx =>
    match app.flat_results.get? idx with
    | none => app
    | some line =>
      let current_ms : Int := (line.start_time : Int)
      if current_ms + delta_ms < 0 then
        { app with status_message := msgStartAtMin }
      else
        let new_ms : Int := current_ms + delta_ms
        let end_ms : Int := (line.end_time : Int)
        if end_ms ≤ new_ms + 10 then
          { app with status_message := msgStartExceedsEnd }
        else
          { app with
              flat_results :=
                app.flat_results.set idx { line with start_time := new_ms.toNat }
              status_message := adjustStartMsg delta_ms new_ms line.original_start }

/-- `App::adjust_end_time`.  `max_end_ms` is the next flattened line's
start when one exists, else `current + 30000`; the candidate must be at
least `start + 10`
and at most `max_end_ms`, and the committed value is clamped into that
interval.  `maxEndBound` is the source's `max_end_ms` computation: the
bound check `idx < len - 1` is equivalent to `get? (idx + 1)` succeeding
because the selected index is in range. -/
def maxEndBound (flat : List DisplayLine) (idx : Nat) (current_ms : Int) : Int :=
  match flat.get? (idx + 1) with
  | some next_line => (next_line.start_time : Int)
  | none => current_ms + 30000

/-- `App::adjust_end_time`, using `maxEndBound` for the source's
`max_end_ms` computation. -/
def adjust_end_time (app : App) (delta_ms : Int) : App :=
  match app.selected_idx with
  | none => app
  | some idx =>
    match app.flat_results.get? idx with
    | none => app
    | some line =>
      let current_ms : Int := (line.end_time : Int)
      let max_end_ms : Int := maxEndBound app.flat_results idx current_ms
      let start_ms : Int := (line.start_time : Int)
      if current_ms + delta_ms < start_ms + 10 then
        { app with status_message := msgEndPrecedesStart }
      else if max_end_ms < current_ms + delta_ms then
        { app with status_message := msgEndExceedsMax max_end_ms }
      else
        let new_ms : Int := max (start_ms + 10) (min max_end_ms (current_ms + delta_ms))
        { app with
            flat_results :=
              app.flat_results.set idx { line with end_time := new_ms.toNat }
            status_message := adjustEndMsg delta_ms new_ms line.original_end }

/-- The Esc handler of `run_app`: with a selected in-range line, restore
`start_time`/`end_time` from `original_start`/`original_end` and report;
with no selection report `No line selected`; with an out-of-range
selection do nothing (the source has no `else` branch there). -/
def reset_selected (app : App) : App :=
  match app.selected_idx with
  | some idx =>
    match app.flat_results.get? idx with
    | none => app
    | some line =>
      { app with
          flat_results :=
            app.flat_results.set idx
              { line with
                  start_time := line.original_start
                  end_time := line.original_end }
          status_message := msgResetDone }
  | none => { app with status_message := msgNoLineSelected }

/-- One timestamp-editing interaction: a start or end adjustment by a
signed delta, or a selection move (Up/Down/refilter set `selected_idx`). -/
inductive EditOp where
  | adjStart (delta_ms : Int)
  | adjEnd (delta_ms : Int)
  | select (i : Option Nat)
deriving DecidableEq

/-- Apply one interaction to the app state. -/
def applyOp (app : App) : EditOp → App
  | .adjStart d => adjust_start_time app d
  | .adjEnd d => adjust_end_time app d
  | .select i => { app with selected_idx := i }

/-- Apply a sequence of interactions left to right. -/
def applyOps (app : App) (ops : List EditOp) : App := ops.foldl applyOp app

/-- Modelled from the spec wording for the query engine: the query is
tokenized on whitespace into lowercase words. -/
def spec_tokenize (q : Str) : List Str := (splitWs q).map lowerStr

/-- Modelled from the spec wording: a segment passes iff every word is a
case-insensitive substring of the segment's text. -/
def spec_passes (q : Str) (r : SearchResult) : Bool :=
  (spec_tokenize q).all (fun w => containsSub w (lowerStr r.text))

/-- Modelled from the spec wording: a timestamp field is well formed when
its trimmed text parses as an integer. -/
def spec_wellFormedField (f : Str) : Bool := (parseU64 (trimStr f)).isSome

/-- Modelled from the spec wording: a timestamp is well formed when the
`:`-split yields exactly 3 fields, the seconds field `.`-splits into
exactly 2 subfields, and every field parses as an integer. -/
def spec_wellFormedTimestamp (t : Str) : Bool :=
  match splitOnChar ':' t with
  | [hh, mm, sf] =>
    spec_wellFormedField hh && spec_wellFormedField mm &&
      (match splitOnChar '.' sf with
       | [ss, msf] => spec_wellFormedField ss && spec_wellFormedField msf
       | _ => false)
  | _ => false

/-- Modelled from the spec wording: a timing line is well formed when the
`-->`-split yields exactly 2 parts and each trimmed side is a well-formed
timestamp. -/
def spec_wellFormedTimingLine (l : Str) : Bool :=
  match splitOnList arrowPat l with
  | [a, b] =>
    spec_wellFormedTimestamp (trimStr a) && spec_wellFormedTimestamp (trimStr b)
  | _ => false

/-- Modelled from the spec wording: an operation "reports a message" when
it updates the status line (§7: user-visible failure behavior is status
line text). -/
def spec_reportsMessage (before after : App) : Bool :=
  ! (after.status_message == before.status_message)

/-- A sample display line for concrete editor states. -/
def c9line : DisplayLine :=
  { text := ("hello").data, file_path := "a.vtt", start_time := 1000,
    end_time := 2000, is_match := true, original_start := 1000,
    original_end := 2000 }

/-- A concrete app with no selection. -/
def c9app : App :=
  { search_query := [], all_results := [], filtered_results := [],
    flat_results := [c9line], selected_idx := none,
    status_message := ("ready").data, context_lines := 0 }

/-- A concrete app whose selected index is out of range. -/
def c9appOut : App :=
  { search_query := [], all_results := [], filtered_results := [],
    flat_results := [c9line], selected_idx := some 5,
    status_message := ("ready").data, context_lines := 0 }

/-- A concrete app with line 0 selected. -/
def c1app : App :=
  { search_query := [], all_results := [], filtered_results := [],
    flat_results := [c9line], selected_idx := some 0,
    status_message := [], context_lines := 0 }

/-- The malformed-then-recovering caption file for the C8 witness: the
timing line above `skipped` lacks milliseconds, the one above `kept`
parses. -/
def c8lines : List Str :=
  [("WEBVTT").data, ("00:00:01 --> 00:00:02").data, ("skipped").data,
   ("00:00:03.000 --> 00:00:04.000").data, ("kept").data]

/-- A one-segment result for the C7 witness. -/
def c7r : SearchResult :=
  { file_path := "a.vtt", text := ("hi").data, start_time := 1000,
    end_time := 2000, context_before := [], context_after := [] }

/-- The app state flattened from `c7r` at context depth 0. -/
def c7app : App :=
  { search_query := [], all_results := [c7r], filtered_results := [c7r],
    flat_results := flatten_results [c7r] 0, selected_idx := some 0,
    status_message := [], context_lines := 0 }

/-- The `(text, start, end, is_match)` tuple that the context-monotonicity
property compares flattened lines by. -/
def proj4 (l : DisplayLine) : Str × Nat × Nat × Bool :=
  (l.text, l.start_time, l.end_time, l.is_match)

/-- The caption file for the C5 counterexample: the match line's text
literally starts with the upward marker, so its display text collides with
a context rendering of the nearby `x` line. -/
def c5lines : List Str :=
  [("WEBVTT").data, ("00:00:00.005 --> 00:00:01.005").data, ("x").data,
   ("00:00:00.000 --> 00:00:01.000").data, ("↑ x").data]

/-- Modelled from the claim wording: no `is_match = false` line has text
identical to, and start and end each within 10 ms of, any
`is_match = true` line of the same list. -/
def spec_noDupInvariant (fl : List DisplayLine) : Bool :=
  fl.all (fun c => c.is_match ||
    fl.all (fun m => ! m.is_match ||
      ! (c.text == m.text && decide (durDiff c.start_time m.start_time ≤ 10)
          && decide (durDiff c.end_time m.end_time ≤ 10))))

/-- The emitted context line of the C5 scenario. -/
def c5ctxline : DisplayLine :=
  { text := ("↑ x").data, file_path := "a.vtt", start_time := 5,
    end_time := 1005, is_match := false, original_start := 5,
    original_end := 1005 }

/-- The emitted match line of the C5 scenario. -/
def c5matchline : DisplayLine :=
  { text := ("↑ x").data, file_path := "a.vtt", start_time := 0,
    end_time := 1000, is_match := true, original_start := 0,
    original_end := 1000 }

/-- Modelled from the spec/claim wording: the candidate context entries
before anchor line `i`, listed nearest-first from the segment outward. -/
def spec_nearestFirstCandidates (lines : List Str) (i : Nat) : List Ctx :=
  ((List.range i).reverse).filterMap (ctxAt lines)

/-- A list of times is ascending (each at most the next). -/
def ascendingNat : List Nat → Bool
  | [] => true
  | [_] => true
  | a :: b :: t => decide (a ≤ b) && ascendingNat (b :: t)

/-- A list of times is descending (each at least the next). -/
def descendingNat : List Nat → Bool
  | [] => true
  | [_] => true
  | a :: b :: t => decide (b ≤ a) && descendingNat (b :: t)

/-- Modelled from the claim wording: lines emitted in chronological order,
oldest first. -/
def spec_oldestFirst (ls : List DisplayLine) : Bool :=
  ascendingNat (ls.map DisplayLine.start_time)

/-- Modelled from the claim wording: a stored context list holding entries
nearest-first from the segment outward (start times descending). -/
def spec_nearestFirstStored (cb : List Ctx) : Bool :=
  descendingNat (cb.map (fun c => c.2.1))

/-- The three-block caption file of the C4 counterexample: anchor `c` has
two timed context lines `a` (1 s) and `b` (2 s) before it. -/
def c4lines : List Str :=
  [("WEBVTT").data, ("00:00:01.000 --> 00:00:02.000").data, ("a").data,
   ("00:00:02.000 --> 00:00:03.000").data, ("b").data,
   ("00:00:03.000 --> 00:00:04.000").data, ("c").data]

/-- The `SearchResult` the loader produces for line 6 (`c`) of `c4lines`. -/
def c4r : SearchResult :=
  { file_path := "a.vtt", text := ("c").data, start_time := 3000,
    end_time := 4000,
    context_before := [(("a").data, 1000, 2000), (("b").data, 2000, 3000)],
    context_after := [] }

/-- C3 helper: `filter` over a pointwise-equal predicate. -/
theorem filter_ext {α : Type} {p q : α → Bool} (l : List α)
    (h : ∀ a, p a = q a) : l.filter p = l.filter q := by
  induction l with
  | nil => rfl
  | cons a t ih => simp [List.filter, h a, ih]

/-- C3: the empty query is the identity filter; a non-empty query keeps
exactly the segments every lowercased whitespace-token of the query occurs
in (case-insensitively), and filtering is order-stable (a sublist of the
input). -/
theorem C3_query_filter (q : Str) (segs : List SearchResult) :
    filter_results q segs = segs.filter (spec_passes q) ∧
    filter_results [] segs = segs ∧
    List.Sublist (filter_results q segs) segs := by
  have hmain : ∀ (q : Str) (segs : List SearchResult),
      filter_results q segs = segs.filter (spec_passes q) := by
    intro q segs
    by_cases hq : q = []
    · subst hq
      have : ∀ r : SearchResult, spec_passes [] r = true := by
        intro r; rfl
      simp [filter_results, filter_ext segs this]
    · unfold filter_results
      rw [if_neg hq]
      refine filter_ext segs ?_
      intro r
      simp only [spec_passes, spec_tokenize, List.all_map]
      rfl
  refine ⟨hmain q segs, ?_, ?_⟩
  · simp [filter_results]
  · rw [hmain q segs]; exact List.filter_sublist segs

/-- Every character of a string accepted by `parseU64` is a digit or a
leading plus sign. -/
theorem parseDigits_chars {t : Str} {v : Nat} (h : parseDigits t = some v) :
    ∀ c ∈ t, c.isDigit = true := by
  unfold parseDigits at h
  by_cases hcond : t ≠ [] ∧ t.all Char.isDigit = true
  · exact fun c hc => List.all_eq_true.mp hcond.2 c hc
  · rw [if_neg hcond] at h; exact absurd h (by simp)

theorem parseU64_chars {t : Str} {v : Nat} (h : parseU64 t = some v) :
    ∀ c ∈ t, c.isDigit = true ∨ c = '+' := by
  unfold parseU64 at h
  by_cases hp : t.head? = some '+'
  · rcases t with _ | ⟨c0, rest⟩
    · simp at hp
    · have hc0 : c0 = '+' := by simpa using hp
      rw [if_pos hp] at h
      intro c hcmem
      rcases List.mem_cons.mp hcmem with hce | hcr
      · exact Or.inr (hce.trans hc0)
      · exact Or.inl (parseDigits_chars h c hcr)
  · rw [if_neg hp] at h
    exact fun c hc => Or.inl (parseDigits_chars h c hc)

/-- A digit-or-plus character is not a separator and not whitespace. -/
theorem digitOrPlus_facts {c : Char} (h : c.isDigit = true ∨ c = '+') :
    c ≠ ':' ∧ c ≠ '.' ∧ c.isWhitespace = false := by
  rcases h with hd | hp
  · simp only [Char.isDigit, Bool.and_eq_true, decide_eq_true_eq] at hd
    have hne : ∀ d : Char, (48 ≤ d.val → d.val ≤ 57 → False) → c ≠ d := by
      intro d hdf e
      exact hdf (e ▸ hd.1) (e ▸ hd.2)
    refine ⟨hne ':' (by decide), hne '.' (by decide), ?_⟩
    simp only [Char.isWhitespace, Bool.or_eq_false_iff,
      decide_eq_false_iff_not]
    exact ⟨⟨⟨hne ' ' (by decide), hne '\t' (by decide)⟩,
      hne '\x0d' (by decide)⟩, hne '\n' (by decide)⟩
  · subst hp; exact ⟨by decide, by decide, by decide⟩

/-- `dropWhile` is the identity when no element satisfies the predicate. -/
theorem dropWhile_of_forall_not {α : Type} {p : α → Bool} {l : List α}
    (h : ∀ c ∈ l, p c = false) : l.dropWhile p = l := by
  cases l with
  | nil => rfl
  | cons c rest =>
    rw [List.dropWhile_cons, h c (List.mem_cons_self _ _)]
    simp

/-- Trimming is the identity on whitespace-free strings. -/
theorem trimStr_of_no_ws {t : Str} (h : ∀ c ∈ t, c.isWhitespace = false) :
    trimStr t = t := by
  unfold trimStr
  rw [dropWhile_of_forall_not h]
  rw [dropWhile_of_forall_not (fun c hc => h c (List.mem_reverse.mp hc))]
  exact List.reverse_reverse t

/-- Strings accepted by `parseU64` are unchanged by `trim` and contain no
`:` or `.` separator. -/
theorem parseU64_clean {t : Str} {v : Nat} (h : parseU64 t = some v) :
    trimStr t = t ∧ ':' ∉ t ∧ '.' ∉ t := by
  have hchars := parseU64_chars h
  refine ⟨trimStr_of_no_ws (fun c hc => (digitOrPlus_facts (hchars c hc)).2.2), ?_, ?_⟩
  · intro hmem; exact (digitOrPlus_facts (hchars _ hmem)).1 rfl
  · intro hmem; exact (digitOrPlus_facts (hchars _ hmem)).2.1 rfl

/-- `splitOnChar` of a separator-free string is that single piece. -/
theorem splitOnChar_of_not_mem {sep : Char} {l : Str} (h : sep ∉ l) :
    splitOnChar sep l = [l] := by
  induction l with
  | nil => rfl
  | cons c rest ih =>
    have hc : ¬ c = sep := fun e => h (e ▸ List.mem_cons_self _ _)
    have hrest : sep ∉ rest := fun m => h (List.mem_cons_of_mem _ m)
    unfold splitOnChar
    rw [if_neg hc, ih hrest]

/-- `splitOnChar` peels a separator-free piece off the front. -/
theorem splitOnChar_append {sep : Char} {a : Str} (h : sep ∉ a) (b : Str) :
    splitOnChar sep (a ++ sep :: b) = a :: splitOnChar sep b := by
  induction a with
  | nil => simp [splitOnChar]
  | cons c rest ih =>
    have hc : ¬ c = sep := fun e => h (e ▸ List.mem_cons_self _ _)
    have hrest : sep ∉ rest := fun m => h (List.mem_cons_of_mem _ m)
    show splitOnChar sep (c :: (rest ++ sep :: b)) = (c :: rest) :: splitOnChar sep b
    have key : splitOnChar sep (c :: (rest ++ sep :: b)) =
        match splitOnChar sep (rest ++ sep :: b) with
        | [] => [[c]]
        | h :: t => (c :: h) :: t := by
      conv_lhs => rw [splitOnChar]
      rw [if_neg hc]
    rw [key, ih hrest]

/-- C10: on input `H:M:S.F` whose four fields parse as `u64` integers, and
whose weighted total does not overflow, `parse_timestamp` returns exactly
`H*3600000 + M*60000 + S*1000 + F` milliseconds — no range validation on
minutes or seconds, and the fractional field is added as a raw millisecond
count whatever its digit count. -/
theorem C10_parse_timestamp_arith (th tm ts tf : Str) (H M S F : Nat)
    (hH : parseU64 th = some H) (hM : parseU64 tm = some M)
    (hS : parseU64 ts = some S) (hF : parseU64 tf = some F)
    (hb : H * 3600000 + M * 60000 + S * 1000 + F < 2 ^ 64) :
    parse_timestamp (th ++ ':' :: (tm ++ ':' :: (ts ++ '.' :: tf))) =
      some (H * 3600000 + M * 60000 + S * 1000 + F) := by
  obtain ⟨htrH, hcH, hdH⟩ := parseU64_clean hH
  obtain ⟨htrM, hcM, hdM⟩ := parseU64_clean hM
  obtain ⟨htrS, hcS, hdS⟩ := parseU64_clean hS
  obtain ⟨htrF, hcF, hdF⟩ := parseU64_clean hF
  have hlast : (':' : Char) ∉ ts ++ '.' :: tf := by
    intro hmem
    rcases List.mem_append.mp hmem with h1 | h2
    · exact hcS h1
    · rcases List.mem_cons.mp h2 with he | h3
      · exact absurd he (by decide)
      · exact hcF h3
  have hsplit3 : splitOnChar ':' (th ++ ':' :: (tm ++ ':' :: (ts ++ '.' :: tf)))
      = [th, tm, ts ++ '.' :: tf] := by
    rw [splitOnChar_append hcH, splitOnChar_append hcM,
        splitOnChar_of_not_mem hlast]
  have hsplit2 : splitOnChar '.' (ts ++ '.' :: tf) = [ts, tf] := by
    rw [splitOnChar_append hdS, splitOnChar_of_not_mem hdF]
  simp only [parse_timestamp, hsplit3, hsplit2, htrH, htrM, htrS, htrF,
    hH, hM, hS, hF, Option.bind_eq_bind, Option.some_bind]
  exact congrArg some (Nat.mod_eq_of_lt hb)

/-- C10 witness: `00:00:01.5` parses to 1005 ms (raw fractional field) and
`0:99:99.5` parses to 6039005 ms (no range validation on minutes or
seconds). -/
theorem C10_witness :
    parseU64 ("00").data = some 0 ∧ parseU64 ("01").data = some 1 ∧
    parseU64 ("5").data = some 5 ∧ parseU64 ("99").data = some 99 ∧
    0 * 3600000 + 0 * 60000 + 1 * 1000 + 5 < 2 ^ 64 ∧
    99 * 60000 + 99 * 1000 + 5 < 2 ^ 64 ∧
    parse_timestamp ("00:00:01.5").data = some 1005 ∧
    parse_timestamp ("0:99:99.5").data = some 6039005 := by
  refine ⟨by decide, by decide, by decide, by decide, by decide, by decide, ?_, ?_⟩
  · have h := C10_parse_timestamp_arith ("00").data ("00").data ("01").data
      ("5").data 0 0 1 5 (by decide) (by decide) (by decide) (by decide)
      (by decide)
    have e : ("00").data ++ ':' :: (("00").data ++ ':' :: (("01").data ++ '.' :: ("5").data))
        = ("00:00:01.5").data := by decide
    rw [e] at h
    simpa using h
  · have h := C10_parse_timestamp_arith ("0").data ("99").data ("99").data
      ("5").data 0 99 99 5 (by decide) (by decide) (by decide) (by decide)
      (by decide)
    have e : ("0").data ++ ':' :: (("99").data ++ ':' :: (("99").data ++ '.' :: ("5").data))
        = ("0:99:99.5").data := by decide
    rw [e] at h
    simpa using h

/-- `parse_timestamp` succeeds exactly on well-formed timestamps. -/
theorem parse_timestamp_isSome (t : Str) :
    (parse_timestamp t).isSome = spec_wellFormedTimestamp t := by
  unfold parse_timestamp spec_wellFormedTimestamp
  rcases hsp : splitOnChar ':' t with _ | ⟨p0, _ | ⟨p1, _ | ⟨p2, _ | ⟨p3, t4⟩⟩⟩⟩ <;>
    simp only [hsp] <;> try rfl
  cases hh : parseU64 (trimStr p0) with
  | none => simp [spec_wellFormedField, hh]
  | some H =>
    cases hm : parseU64 (trimStr p1) with
    | none => simp [spec_wellFormedField, hh, hm]
    | some M =>
      rcases hsd : splitOnChar '.' p2 with _ | ⟨s0, _ | ⟨s1, _ | ⟨s2, t3⟩⟩⟩ <;>
        simp only [hsd] <;> try simp [spec_wellFormedField, hh, hm]
      cases hs : parseU64 (trimStr s0) with
      | none => simp [spec_wellFormedField, hh, hm, hs]
      | some S =>
        cases hf : parseU64 (trimStr s1) with
        | none => simp [spec_wellFormedField, hh, hm, hs, hf]
        | some F => simp [spec_wellFormedField, hh, hm, hs, hf]

/-- A push-style fold over options is `filterMap`. -/
theorem foldl_push_eq_filterMap {α β : Type} (f : α → Option β) (l : List α)
    (acc : List β) :
    l.foldl (pushStep f) acc = acc ++ l.filterMap f := by
  induction l generalizing acc with
  | nil => simp
  | cons a t ih =>
    cases hf : f a <;>
      simp [List.foldl_cons, pushStep, hf, ih, List.filterMap_cons]

/-- Indices whose function value is `none` can be removed from a
`filterMap` without changing the result. -/
theorem filterMap_drop_none {α β : Type} [DecidableEq α] (f : α → Option β)
    (l : List α) (i : α) (hi : f i = none) :
    l.filterMap f = (l.filter (fun a => a != i)).filterMap f := by
  induction l with
  | nil => rfl
  | cons a t ih =>
    by_cases ha : a = i
    · subst ha
      simp [List.filter_cons, List.filterMap_cons, hi, ih]
    · simp [List.filter_cons, List.filterMap_cons, bne_iff_ne, ha, ih]

/-- C8: `parse_time_range` succeeds exactly when the line splits on `-->`
into 2 parts, each side `:`-splits into 3 fields with the seconds field
`.`-splitting into 2 subfields, and every field parses as an integer; the
per-file loader is a per-index `filterMap`, so a line whose timing fails to
parse contributes nothing while every other index is processed unchanged
(no parse failure aborts the file). -/
theorem C8_parse_failure_locality :
    (∀ l, (parse_time_range l).isSome = spec_wellFormedTimingLine l) ∧
    (∀ (lines : List Str) (fp : String),
      load_file lines fp = (List.range lines.length).filterMap (segAt lines fp)) ∧
    (∀ (lines : List Str) (fp : String) (i : Nat), segAt lines fp i = none →
      load_file lines fp =
        ((List.range lines.length).filter (fun a => a != i)).filterMap
          (segAt lines fp)) := by
  have hload : ∀ (lines : List Str) (fp : String),
      load_file lines fp = (List.range lines.length).filterMap (segAt lines fp) := by
    intro lines fp
    unfold load_file
    simpa using foldl_push_eq_filterMap (segAt lines fp) (List.range lines.length) []
  refine ⟨?_, hload, ?_⟩
  · intro l
    unfold parse_time_range spec_wellFormedTimingLine
    rcases hsp : splitOnList arrowPat l with _ | ⟨p0, _ | ⟨p1, _ | ⟨p2, t3⟩⟩⟩ <;>
      simp only [hsp] <;> try rfl
    cases h0 : parse_timestamp (trimStr p0) with
    | none => simp [← parse_timestamp_isSome, h0]
    | some a =>
      cases h1 : parse_timestamp (trimStr p1) with
      | none => simp [← parse_timestamp_isSome, h0, h1]
      | some b => simp [← parse_timestamp_isSome, h0, h1]
  · intro lines fp i hi
    rw [hload lines fp]
    exact filterMap_drop_none (segAt lines fp) (List.range lines.length) i hi

/-- C1: with a selected in-range line, `adjust_start_time` rejects with no
mutation when `cur + delta < 0`; otherwise, with `candidate = cur + delta`,
it rejects with no mutation when `end - candidate ≤ 10` ms; otherwise it
commits `start = candidate`; and in every case no line other than the
selected one is mutated. -/
theorem C1_adjust_start (app : App) (idx : Nat) (delta : Int)
    (line : DisplayLine)
    (hsel : app.selected_idx = some idx)
    (hline : app.flat_results.get? idx = some line) :
    (((line.start_time : Int) + delta < 0 →
        adjust_start_time app delta =
          { app with status_message := msgStartAtMin }) ∧
     (0 ≤ (line.start_time : Int) + delta →
      (line.end_time : Int) - ((line.start_time : Int) + delta) ≤ 10 →
        adjust_start_time app delta =
          { app with status_message := msgStartExceedsEnd }) ∧
     (0 ≤ (line.start_time : Int) + delta →
      10 < (line.end_time : Int) - ((line.start_time : Int) + delta) →
        (adjust_start_time app delta).flat_results =
          app.flat_results.set idx
            { line with start_time := ((line.start_time : Int) + delta).toNat })) ∧
    (∀ j, j ≠ idx →
      (adjust_start_time app delta).flat_results.get? j =
        app.flat_results.get? j) := by
  have key : adjust_start_time app delta =
      (if (line.start_time : Int) + delta < 0 then
        { app with status_message := msgStartAtMin }
      else if (line.end_time : Int) ≤ (line.start_time : Int) + delta + 10 then
        { app with status_message := msgStartExceedsEnd }
      else
        { app with
            flat_results := app.flat_results.set idx
              { line with start_time := ((line.start_time : Int) + delta).toNat }
            status_message :=
              adjustStartMsg delta ((line.start_time : Int) + delta)
                line.original_start }) := by
    simp only [adjust_start_time, hsel, hline]
  refine ⟨⟨?_, ?_, ?_⟩, ?_⟩
  · intro h1
    rw [key, if_pos h1]
  · intro h1 h2
    rw [key, if_neg (by omega), if_pos (by omega)]
  · intro h1 h2
    rw [key, if_neg (by omega), if_neg (by omega)]
  · intro j hj
    rw [key]
    by_cases h1 : (line.start_time : Int) + delta < 0
    · rw [if_pos h1]
    · rw [if_neg h1]
      by_cases h2 : (line.end_time : Int) ≤ (line.start_time : Int) + delta + 10
      · rw [if_pos h2]
      · rw [if_neg h2]
        exact List.get?_set_ne _ _ (fun e => hj e.symm)

/-- C2: with a selected in-range line, `adjust_end_time` uses
`maxEnd` = the next flattened line's start when a next line exists and
`cur + 30000` when the selected line is the last; it rejects with no
mutation when `cur + delta < start + 10` ms, rejects with no mutation when
`cur + delta > maxEnd`, and otherwise commits
`end = clamp(cur + delta, start + 10, maxEnd)`, mutating only the selected
line. -/
theorem C2_adjust_end (app : App) (idx : Nat) (delta : Int)
    (line : DisplayLine)
    (hsel : app.selected_idx = some idx)
    (hline : app.flat_results.get? idx = some line) :
    (∀ next, app.flat_results.get? (idx + 1) = some next →
        maxEndBound app.flat_results idx (line.end_time : Int) =
          (next.start_time : Int)) ∧
    (app.flat_results.get? (idx + 1) = none →
        idx = app.flat_results.length - 1 ∧
        maxEndBound app.flat_results idx (line.end_time : Int) =
          (line.end_time : Int) + 30000) ∧
    (((line.end_time : Int) + delta < (line.start_time : Int) + 10 →
        adjust_end_time app delta =
          { app with status_message := msgEndPrecedesStart }) ∧
     (¬ ((line.end_time : Int) + delta < (line.start_time : Int) + 10) →
      maxEndBound app.flat_results idx (line.end_time : Int) <
          (line.end_time : Int) + delta →
        adjust_end_time app delta =
          { app with status_message := msgEndExceedsMax (maxEndBound app.flat_results idx (line.end_time : Int)) }) ∧
     ((line.start_time : Int) + 10 ≤ (line.end_time : Int) + delta →
      (line.end_time : Int) + delta ≤
          maxEndBound app.flat_results idx (line.end_time : Int) →
        (adjust_end_time app delta).flat_results =
          app.flat_results.set idx
            { line with
                end_time :=
                  (max ((line.start_time : Int) + 10)
                    (min (maxEndBound app.flat_results idx (line.end_time : Int))
                      ((line.end_time : Int) + delta))).toNat })) ∧
    (∀ j, j ≠ idx →
      (adjust_end_time app delta).flat_results.get? j =
        app.flat_results.get? j) := by
  have key : adjust_end_time app delta =
      (if (line.end_time : Int) + delta < (line.start_time : Int) + 10 then
        { app with status_message := msgEndPrecedesStart }
      else if maxEndBound app.flat_results idx (line.end_time : Int) <
          (line.end_time : Int) + delta then
        { app with status_message := msgEndExceedsMax (maxEndBound app.flat_results idx (line.end_time : Int)) }
      else
        { app with
            flat_results := app.flat_results.set idx
              { line with
                  end_time :=
                    (max ((line.start_time : Int) + 10)
                      (min (maxEndBound app.flat_results idx (line.end_time : Int))
                        ((line.end_time : Int) + delta))).toNat }
            status_message :=
              adjustEndMsg delta
                (max ((line.start_time : Int) + 10)
                  (min (maxEndBound app.flat_results idx (line.end_time : Int))
                    ((line.end_time : Int) + delta)))
                line.original_end }) := by
    simp only [adjust_end_time, hsel, hline]
  refine ⟨?_, ?_, ⟨?_, ?_, ?_⟩, ?_⟩
  · intro next hn
    rw [List.get?_eq_getElem?] at hn
    simp [maxEndBound, hn]
  · intro hn
    constructor
    · have hidx : idx < app.flat_results.length := by
        rcases List.get?_eq_some.mp hline with ⟨h, _⟩
        exact h
      have hlen : app.flat_results.length ≤ idx + 1 := List.get?_eq_none.mp hn
      omega
    · rw [List.get?_eq_getElem?] at hn
      simp [maxEndBound, hn]
  · intro h1
    rw [key, if_pos h1]
  · intro h1 h2
    rw [key, if_neg h1, if_pos h2]
  · intro h1 h2
    rw [key, if_neg (by omega), if_neg (by omega)]
  · intro j hj
    rw [key]
    by_cases h1 : (line.end_time : Int) + delta < (line.start_time : Int) + 10
    · rw [if_pos h1]
    · rw [if_neg h1]
      by_cases h2 : maxEndBound app.flat_results idx (line.end_time : Int) <
          (line.end_time : Int) + delta
      · rw [if_pos h2]
      · rw [if_neg h2]
        exact List.get?_set_ne _ _ (fun e => hj e.symm)

/-- C9 counterexample: with no selection, `adjust_start_time` and
`adjust_end_time` return the state bit-for-bit unchanged — no message is
reported, contrary to the claim; likewise all three operations with an
out-of-range selected index. -/
theorem C9_counterexample :
    adjust_start_time c9app 100 = c9app ∧
    adjust_end_time c9app 100 = c9app ∧
    spec_reportsMessage c9app (adjust_start_time c9app 100) = false ∧
    adjust_start_time c9appOut 100 = c9appOut ∧
    adjust_end_time c9appOut 100 = c9appOut ∧
    reset_selected c9appOut = c9appOut ∧
    spec_reportsMessage c9appOut (reset_selected c9appOut) = false := by
  decide

/-- C9 amended: with no selection or an out-of-range index no `DisplayLine`
is changed and no exception occurs, but only reset-with-no-selection
reports a message; the adjust operations return the state unchanged
(status line included), and reset with an out-of-range index is silent. -/
theorem C9_amended_noop (app : App) (delta : Int) :
    (app.selected_idx = none →
      adjust_start_time app delta = app ∧
      adjust_end_time app delta = app ∧
      reset_selected app = { app with status_message := msgNoLineSelected }) ∧
    (∀ i, app.selected_idx = some i → app.flat_results.length ≤ i →
      adjust_start_time app delta = app ∧
      adjust_end_time app delta = app ∧
      reset_selected app = app) := by
  constructor
  · intro h
    refine ⟨?_, ?_, ?_⟩ <;>
      simp [adjust_start_time, adjust_end_time, reset_selected, h]
  · intro i hsel hlen
    have hnone : app.flat_results[i]? = none := by
      rw [← List.get?_eq_getElem?]
      exact List.get?_eq_none.mpr hlen
    refine ⟨?_, ?_, ?_⟩ <;>
      simp [adjust_start_time, adjust_end_time, reset_selected, hsel, hnone]

/-- C9 witness: the amended no-op behavior at the concrete states. -/
theorem C9_witness :
    c9app.selected_idx = none ∧
    adjust_start_time c9app 25 = c9app ∧
    c9appOut.selected_idx = some 5 ∧ c9appOut.flat_results.length ≤ 5 ∧
    reset_selected c9appOut = c9appOut :=
  ⟨rfl, ((C9_amended_noop c9app 25).1 rfl).1, rfl, by decide,
    ((C9_amended_noop c9appOut 25).2 5 rfl (by decide)).2.2⟩

/-- C1 witness: a +100 ms nudge of the selected line's start commits. -/
theorem C1_witness :
    c1app.selected_idx = some 0 ∧
    c1app.flat_results.get? 0 = some c9line ∧
    0 ≤ (c9line.start_time : Int) + 100 ∧
    10 < (c9line.end_time : Int) - ((c9line.start_time : Int) + 100) ∧
    (adjust_start_time c1app 100).flat_results =
      c1app.flat_results.set 0
        { c9line with start_time := ((c9line.start_time : Int) + 100).toNat } :=
  ⟨rfl, rfl, by decide, by decide,
    (C1_adjust_start c1app 0 100 c9line rfl rfl).1.2.2 (by decide) (by decide)⟩

/-- C2 witness: a +100 ms nudge of the selected last line's end commits to
the clamped value under the 30-second ceiling. -/
theorem C2_witness :
    c1app.selected_idx = some 0 ∧
    c1app.flat_results.get? 0 = some c9line ∧
    (c9line.start_time : Int) + 10 ≤ (c9line.end_time : Int) + 100 ∧
    (c9line.end_time : Int) + 100 ≤
      maxEndBound c1app.flat_results 0 (c9line.end_time : Int) ∧
    (adjust_end_time c1app 100).flat_results =
      c1app.flat_results.set 0
        { c9line with
            end_time :=
              (max ((c9line.start_time : Int) + 10)
                (min (maxEndBound c1app.flat_results 0 (c9line.end_time : Int))
                  ((c9line.end_time : Int) + 100))).toNat } :=
  ⟨rfl, rfl, by decide, by decide,
    (C2_adjust_end c1app 0 100 c9line rfl rfl).2.2.1.2.2 (by decide) (by decide)⟩

/-- C8 witness: line 2 of the concrete file is skipped (its timing line is
unparsable) while the rest of the file still loads. -/
theorem C8_witness :
    segAt c8lines ("a.vtt") 2 = none ∧
    load_file c8lines ("a.vtt") =
      ((List.range c8lines.length).filter (fun a => a != 2)).filterMap
        (segAt c8lines ("a.vtt")) :=
  ⟨by decide, C8_parse_failure_locality.2.2 c8lines ("a.vtt") 2 (by decide)⟩

/-- Setting index `idx` with a line sharing the stored line's original
times leaves every position's original times unchanged. -/
theorem origs_set {l : List DisplayLine} {idx : Nat} {line line' : DisplayLine}
    (hl : l[idx]? = some line)
    (ho : line'.original_start = line.original_start)
    (he : line'.original_end = line.original_end) (j : Nat) :
    ((l.set idx line')[j]?).map (fun x => (x.original_start, x.original_end))
      = (l[j]?).map (fun x => (x.original_start, x.original_end)) := by
  by_cases hj : j = idx
  · subst hj
    have hidx : j < l.length := by
      rcases List.getElem?_eq_some.mp hl with ⟨h, _⟩
      exact h
    rw [List.getElem?_set_eq hidx, hl]
    simp [ho, he]
  · rw [List.getElem?_set_ne (fun e => hj e.symm)]

/-- One editor interaction preserves the flattened list's length and every
line's original times. -/
theorem applyOp_preserves (app : App) (op : EditOp) :
    (applyOp app op).flat_results.length = app.flat_results.length ∧
    ∀ j : Nat, ((applyOp app op).flat_results[j]?).map
        (fun x => (x.original_start, x.original_end))
      = (app.flat_results[j]?).map
        (fun x => (x.original_start, x.original_end)) := by
  cases op with
  | select i => exact ⟨rfl, fun j => rfl⟩
  | adjStart d =>
    show (adjust_start_time app d).flat_results.length = app.flat_results.length ∧
      ∀ j : Nat, ((adjust_start_time app d).flat_results[j]?).map
          (fun x => (x.original_start, x.original_end))
        = (app.flat_results[j]?).map (fun x => (x.original_start, x.original_end))
    cases hsel : app.selected_idx with
    | none => simp [adjust_start_time, hsel]
    | some idx =>
      cases hl : app.flat_results[idx]? with
      | none => simp [adjust_start_time, hsel, hl]
      | some line =>
        simp only [adjust_start_time, hsel, List.get?_eq_getElem?, hl]
        split
        · exact ⟨rfl, fun j => rfl⟩
        · split
          · exact ⟨rfl, fun j => rfl⟩
          · refine ⟨List.length_set .., fun j => ?_⟩
            refine origs_set hl ?_ ?_ j <;> rfl
  | adjEnd d =>
    show (adjust_end_time app d).flat_results.length = app.flat_results.length ∧
      ∀ j : Nat, ((adjust_end_time app d).flat_results[j]?).map
          (fun x => (x.original_start, x.original_end))
        = (app.flat_results[j]?).map (fun x => (x.original_start, x.original_end))
    cases hsel : app.selected_idx with
    | none => simp [adjust_end_time, hsel]
    | some idx =>
      cases hl : app.flat_results[idx]? with
      | none => simp [adjust_end_time, hsel, hl]
      | some line =>
        simp only [adjust_end_time, hsel, List.get?_eq_getElem?, hl]
        split
        · exact ⟨rfl, fun j => rfl⟩
        · split
          · exact ⟨rfl, fun j => rfl⟩
          · refine ⟨List.length_set .., fun j => ?_⟩
            refine origs_set hl ?_ ?_ j <;> rfl

/-- A whole interaction sequence preserves length and original times. -/
theorem applyOps_preserves (app : App) (ops : List EditOp) :
    (applyOps app ops).flat_results.length = app.flat_results.length ∧
    ∀ j : Nat, ((applyOps app ops).flat_results[j]?).map
        (fun x => (x.original_start, x.original_end))
      = (app.flat_results[j]?).map
        (fun x => (x.original_start, x.original_end)) := by
  induction ops generalizing app with
  | nil => exact ⟨rfl, fun j => rfl⟩
  | cons op rest ih =>
    have h1 := applyOp_preserves app op
    have h2 := ih (applyOp app op)
    exact ⟨h2.1.trans h1.1, fun j => (h2.2 j).trans (h1.2 j)⟩

/-- Every line of a flattened list is created with its original times equal
to its current times. -/
theorem flatten_origs {rs : List SearchResult} {k : Nat} {l : DisplayLine}
    (h : l ∈ flatten_results rs k) :
    l.original_start = l.start_time ∧ l.original_end = l.end_time := by
  unfold flatten_results at h
  rw [List.mem_flatten] at h
  rcases h with ⟨blk, hblk, hl⟩
  rcases List.mem_map.mp hblk with ⟨r, _, rfl⟩
  unfold resultBlock beforeBlock afterBlock at hl
  rcases List.mem_append.mp hl with h1 | h2
  · split at h1
    · rcases List.mem_map.mp h1 with ⟨c, _, rfl⟩
      exact ⟨rfl, rfl⟩
    · cases h1
  · rcases List.mem_cons.mp h2 with rfl | h3
    · exact ⟨rfl, rfl⟩
    · split at h3
      · rcases List.mem_map.mp h3 with ⟨c, _, rfl⟩
        exact ⟨rfl, rfl⟩
      · cases h3

/-- C7: after any finite sequence of adjustStart/adjustEnd interactions
(successful or rejected, at any selections), every line's
`original_start`/`original_end` still hold the exact values captured when
the line was created at flatten time, and a subsequent reset of line `j`
restores its `start`/`end` to exactly those values. -/
theorem C7_reset_exact (rs : List SearchResult) (k : Nat) (app0 : App)
    (ops : List EditOp) (j : Nat)
    (happ : app0.flat_results = flatten_results rs k) :
    ((applyOps app0 ops).flat_results[j]?).map
        (fun l => (l.original_start, l.original_end))
      = ((flatten_results rs k)[j]?).map (fun l => (l.start_time, l.end_time)) ∧
    ((reset_selected
        { applyOps app0 ops with selected_idx := some j }).flat_results[j]?).map
        (fun l => (l.start_time, l.end_time))
      = ((flatten_results rs k)[j]?).map (fun l => (l.start_time, l.end_time)) := by
  have hpres := applyOps_preserves app0 ops
  have horig : ((flatten_results rs k)[j]?).map
      (fun l => (l.original_start, l.original_end))
      = ((flatten_results rs k)[j]?).map (fun l => (l.start_time, l.end_time)) := by
    cases hg : (flatten_results rs k)[j]? with
    | none => rfl
    | some l =>
      have hmem : l ∈ flatten_results rs k := by
        rcases List.getElem?_eq_some.mp hg with ⟨h, he⟩
        exact he ▸ List.getElem_mem h
      obtain ⟨h1, h2⟩ := flatten_origs hmem
      simp [h1, h2]
  have hfirst : ((applyOps app0 ops).flat_results[j]?).map
      (fun l => (l.original_start, l.original_end))
      = ((flatten_results rs k)[j]?).map (fun l => (l.start_time, l.end_time)) := by
    rw [hpres.2 j, happ, horig]
  refine ⟨hfirst, ?_⟩
  cases hg : (applyOps app0 ops).flat_results[j]? with
  | none =>
    have hres : reset_selected { applyOps app0 ops with selected_idx := some j }
        = { applyOps app0 ops with selected_idx := some j } := by
      simp [reset_selected, List.get?_eq_getElem?, hg]
    rw [hres]
    have hflat : (flatten_results rs k)[j]? = none := by
      have hlen1 : (applyOps app0 ops).flat_results.length
          = (flatten_results rs k).length := by
        rw [hpres.1, happ]
      have hle : (applyOps app0 ops).flat_results.length ≤ j := by
        rw [← List.get?_eq_getElem?] at hg
        exact List.get?_eq_none.mp hg
      rw [← List.get?_eq_getElem?]
      exact List.get?_eq_none.mpr (by omega)
    show ((applyOps app0 ops).flat_results[j]?).map _ = _
    rw [hg, hflat]
  | some line1 =>
    have hjlt : j < (applyOps app0 ops).flat_results.length := by
      rcases List.getElem?_eq_some.mp hg with ⟨h, _⟩
      exact h
    have hres : (reset_selected
        { applyOps app0 ops with selected_idx := some j }).flat_results
        = (applyOps app0 ops).flat_results.set j
            { line1 with
                start_time := line1.original_start
                end_time := line1.original_end } := by
      simp [reset_selected, List.get?_eq_getElem?, hg]
    rw [hres, List.getElem?_set_eq hjlt]
    have hthis := hfirst
    rw [hg] at hthis
    simpa using hthis

/-- C7 witness: a +100 ms start nudge then a −25 ms end nudge followed by
reset restores the flatten-time times of line 0. -/
theorem C7_witness :
    c7app.flat_results = flatten_results [c7r] 0 ∧
    ((reset_selected
        { applyOps c7app [EditOp.adjStart 100, EditOp.adjEnd (-25)] with
            selected_idx := some 0 }).flat_results[0]?).map
        (fun l => (l.start_time, l.end_time))
      = ((flatten_results [c7r] 0)[0]?).map
        (fun l => (l.start_time, l.end_time)) :=
  ⟨rfl, (C7_reset_exact [c7r] 0 c7app
      [EditOp.adjStart 100, EditOp.adjEnd (-25)] 0 rfl).2⟩

/-- `filter` preserves the prefix relation. -/
theorem isPrefix_filter {α : Type} (p : α → Bool) {l₁ l₂ : List α}
    (h : l₁ <+: l₂) : l₁.filter p <+: l₂.filter p := by
  rcases h with ⟨t, rfl⟩
  exact ⟨t.filter p, (List.filter_append _ _).symm⟩

/-- `map` preserves the prefix relation. -/
theorem isPrefix_map {α β : Type} (f : α → β) {l₁ l₂ : List α}
    (h : l₁ <+: l₂) : l₁.map f <+: l₂.map f := by
  rcases h with ⟨t, rfl⟩
  exact ⟨t.map f, (List.map_append _ _ _).symm⟩

/-- A shorter take is a prefix of a longer take. -/
theorem take_isPrefix_take {α : Type} (l : List α) {m n : Nat} (h : m ≤ n) :
    l.take m <+: l.take n := by
  have e : l.take m = (l.take n).take m := by
    rw [List.take_take, Nat.min_eq_left h]
  rw [e]
  exact List.take_prefix m (l.take n)

/-- The context-before block grows by a prefix as the depth grows. -/
theorem beforeBlock_isPrefix (ms : List Ctx) (k : Nat) (r : SearchResult) :
    beforeBlock ms k r <+: beforeBlock ms (k + 1) r := by
  unfold beforeBlock
  by_cases hk : 0 < k
  · rw [if_pos hk, if_pos (by omega)]
    exact isPrefix_map _ (isPrefix_filter _ (take_isPrefix_take _ (by omega)))
  · rw [if_neg hk]
    exact List.nil_prefix

/-- The context-after block grows by a prefix as the depth grows. -/
theorem afterBlock_isPrefix (ms : List Ctx) (k : Nat) (r : SearchResult) :
    afterBlock ms k r <+: afterBlock ms (k + 1) r := by
  unfold afterBlock
  by_cases hk : 0 < k
  · rw [if_pos hk, if_pos (by omega)]
    exact isPrefix_map _ (isPrefix_filter _ (take_isPrefix_take _ (by omega)))
  · rw [if_neg hk]
    exact List.nil_prefix

/-- A result's block at depth `k` is a sublist of its block at `k + 1`. -/
theorem resultBlock_sublist (ms : List Ctx) (k : Nat) (r : SearchResult) :
    List.Sublist (resultBlock ms k r) (resultBlock ms (k + 1) r) := by
  unfold resultBlock
  exact List.Sublist.append (beforeBlock_isPrefix ms k r).sublist
    (List.Sublist.cons₂ _ (afterBlock_isPrefix ms k r).sublist)

/-- The whole flattened list at depth `k` is a sublist of the one at
`k + 1` (for a fixed match snapshot). -/
theorem flatten_blocks_sublist (ms : List Ctx) (k : Nat)
    (rs' : List SearchResult) :
    List.Sublist ((rs'.map (resultBlock ms k)).flatten)
      ((rs'.map (resultBlock ms (k + 1))).flatten) := by
  induction rs' with
  | nil => exact List.Sublist.refl _
  | cons r t ih =>
    simp only [List.map_cons, List.flatten_cons]
    exact List.Sublist.append (resultBlock_sublist ms k r) ih

/-- `flatten_results` is monotone in the context depth, as a sublist. -/
theorem flatten_sublist (rs : List SearchResult) (k : Nat) :
    List.Sublist (flatten_results rs k) (flatten_results rs (k + 1)) :=
  flatten_blocks_sublist (matchSegments rs) k rs

/-- The `is_match` lines of a flattened list are exactly the match lines of
the filtered results, in filtered order, at every depth. -/
theorem filter_matches_blocks (ms : List Ctx) (k : Nat) :
    ∀ rs' : List SearchResult,
      ((rs'.map (resultBlock ms k)).flatten).filter (fun l => l.is_match)
        = rs'.map matchLine := by
  intro rs'
  induction rs' with
  | nil => rfl
  | cons r t ih =>
    simp only [List.map_cons, List.flatten_cons, List.filter_append, ih]
    have hb : (beforeBlock ms k r).filter (fun l => l.is_match) = [] := by
      rw [List.filter_eq_nil]
      intro a ha
      unfold beforeBlock at ha
      split at ha
      · rcases List.mem_map.mp ha with ⟨c, _, rfl⟩
        simp [mkUpLine]
      · cases ha
    have hafter : (afterBlock ms k r).filter (fun l => l.is_match) = [] := by
      rw [List.filter_eq_nil]
      intro a ha
      unfold afterBlock at ha
      split at ha
      · rcases List.mem_map.mp ha with ⟨c, _, rfl⟩
        simp [mkDownLine]
      · cases ha
    have hblock : (resultBlock ms k r).filter (fun l => l.is_match)
        = [matchLine r] := by
      unfold resultBlock
      rw [List.filter_append, hb, List.nil_append, List.filter_cons]
      simp [matchLine, hafter]
    rw [hblock]
    rfl

/-- C6: for a fixed filtered set and depth `k ≤ 4`, the flattened list at
depth `k + 1` is a multiset superset (by `(text, start, end, is_match)`
tuples) of the one at depth `k`, and the `is_match = true` lines are
identical, hence in the same order, in both lists. -/
theorem C6_context_monotone (rs : List SearchResult) (k : Nat) (hk : k ≤ 4) :
    (((flatten_results rs k).map proj4 : Multiset (Str × Nat × Nat × Bool))
      ≤ ((flatten_results rs (k + 1)).map proj4 :
          Multiset (Str × Nat × Nat × Bool))) ∧
    (flatten_results rs k).filter (fun l => l.is_match)
      = (flatten_results rs (k + 1)).filter (fun l => l.is_match) := by
  constructor
  · have hsub := List.Sublist.map proj4 (flatten_sublist rs k)
    exact Multiset.coe_le.mpr hsub.subperm
  · unfold flatten_results
    rw [filter_matches_blocks, filter_matches_blocks]

/-- C6 witness: the monotonicity instance at the one-segment filtered set
and depth 0. -/
theorem C6_witness :
    (0 : Nat) ≤ 4 ∧
    (((flatten_results [c7r] 0).map proj4 : Multiset (Str × Nat × Nat × Bool))
      ≤ ((flatten_results [c7r] 1).map proj4 :
          Multiset (Str × Nat × Nat × Bool))) ∧
    (flatten_results [c7r] 0).filter (fun l => l.is_match)
      = (flatten_results [c7r] 1).filter (fun l => l.is_match) :=
  ⟨by decide, (C6_context_monotone [c7r] 0 (by decide)).1,
    (C6_context_monotone [c7r] 0 (by decide)).2⟩

/-- The millisecond difference is symmetric. -/
theorem durDiff_comm (a b : Nat) : durDiff a b = durDiff b a := by
  unfold durDiff
  split <;> split <;> omega

/-- The suppression test holds exactly when some snapshot entry has
identical text and both time differences strictly below 10 ms. -/
theorem isAlsoMatch_iff (ms : List Ctx) (c : Ctx) :
    isAlsoMatch ms c = true ↔
      ∃ m ∈ ms, m.1 = c.1 ∧ durDiff m.2.1 c.2.1 < 10 ∧
        durDiff m.2.2 c.2.2 < 10 := by
  unfold isAlsoMatch
  rw [List.any_eq_true]
  constructor
  · rintro ⟨m, hm, hp⟩
    refine ⟨m, hm, ?_⟩
    unfold is_same_segment at hp
    by_cases ht : m.1 ≠ c.1
    · rw [if_pos ht] at hp
      cases hp
    · rw [if_neg ht] at hp
      push_neg at ht
      rcases (Bool.and_eq_true _ _).mp hp with ⟨h1, h2⟩
      exact ⟨ht, of_decide_eq_true h1, of_decide_eq_true h2⟩
  · rintro ⟨m, hm, ht, h1, h2⟩
    refine ⟨m, hm, ?_⟩
    unfold is_same_segment
    rw [if_neg (by simpa using ht)]
    exact (Bool.and_eq_true _ _).mpr ⟨decide_eq_true h1, decide_eq_true h2⟩

/-- Context lines of a flattened list come from unsuppressed entries: each
`is_match = false` line is a marker-prefixed rendering of a context entry
`c` with `isAlsoMatch ms c = false`. -/
theorem mem_flatten_ctx {rs : List SearchResult} {k : Nat} {l : DisplayLine}
    (h : l ∈ flatten_results rs k) (hm : l.is_match = false) :
    ∃ r ∈ rs, ∃ c : Ctx, isAlsoMatch (matchSegments rs) c = false ∧
      (l = mkUpLine r.file_path c ∨ l = mkDownLine r.file_path c) := by
  unfold flatten_results at h
  rw [List.mem_flatten] at h
  rcases h with ⟨blk, hblk, hl⟩
  rcases List.mem_map.mp hblk with ⟨r, hr, rfl⟩
  refine ⟨r, hr, ?_⟩
  unfold resultBlock beforeBlock afterBlock at hl
  rcases List.mem_append.mp hl with h1 | h2
  · split at h1
    · rcases List.mem_map.mp h1 with ⟨c, hc, rfl⟩
      rcases List.mem_filter.mp hc with ⟨_, hfc⟩
      exact ⟨c, by simpa using hfc, Or.inl rfl⟩
    · cases h1
  · rcases List.mem_cons.mp h2 with rfl | h3
    · simp [matchLine] at hm
    · split at h3
      · rcases List.mem_map.mp h3 with ⟨c, hc, rfl⟩
        rcases List.mem_filter.mp hc with ⟨_, hfc⟩
        exact ⟨c, by simpa using hfc, Or.inr rfl⟩
      · cases h3

/-- Match lines of a flattened list are exactly the `matchLine` renderings
of the filtered results. -/
theorem mem_flatten_match {rs : List SearchResult} {k : Nat} {l : DisplayLine}
    (h : l ∈ flatten_results rs k) (hm : l.is_match = true) :
    ∃ r ∈ rs, l = matchLine r := by
  unfold flatten_results at h
  rw [List.mem_flatten] at h
  rcases h with ⟨blk, hblk, hl⟩
  rcases List.mem_map.mp hblk with ⟨r, hr, rfl⟩
  refine ⟨r, hr, ?_⟩
  unfold resultBlock beforeBlock afterBlock at hl
  rcases List.mem_append.mp hl with h1 | h2
  · split at h1
    · rcases List.mem_map.mp h1 with ⟨c, _, rfl⟩
      simp [mkUpLine] at hm
    · cases h1
  · rcases List.mem_cons.mp h2 with rfl | h3
    · rfl
    · split at h3
      · rcases List.mem_map.mp h3 with ⟨c, _, rfl⟩
        simp [mkDownLine] at hm
      · cases h3

/-- C5 (amended): a candidate context entry is suppressed exactly when some
currently filtered segment has identical raw text and both timestamps
strictly within 10 ms; consequently no `is_match = false` line's underlying
entry — its text with the two-character marker prefix removed, with the
line's own times — coincides (under that strict tolerance) with any
`is_match = true` line of the same flattened list. -/
theorem C5_amended (rs : List SearchResult) (k : Nat) :
    (∀ c ∈ flatten_results rs k, c.is_match = false →
      ∀ m ∈ flatten_results rs k, m.is_match = true →
        ¬ (c.text.drop 2 = m.text ∧ durDiff c.start_time m.start_time < 10 ∧
            durDiff c.end_time m.end_time < 10)) ∧
    (∀ c : Ctx, isAlsoMatch (matchSegments rs) c = true ↔
      ∃ r ∈ rs, r.text = c.1 ∧ durDiff r.start_time c.2.1 < 10 ∧
        durDiff r.end_time c.2.2 < 10) := by
  have hsnd : ∀ c : Ctx, isAlsoMatch (matchSegments rs) c = true ↔
      ∃ r ∈ rs, r.text = c.1 ∧ durDiff r.start_time c.2.1 < 10 ∧
        durDiff r.end_time c.2.2 < 10 := by
    intro c
    rw [isAlsoMatch_iff]
    constructor
    · rintro ⟨m, hm, h⟩
      rcases List.mem_map.mp hm with ⟨r, hr, rfl⟩
      exact ⟨r, hr, h⟩
    · rintro ⟨r, hr, h⟩
      exact ⟨(r.text, r.start_time, r.end_time), List.mem_map_of_mem _ hr, h⟩
  refine ⟨?_, hsnd⟩
  intro c hcmem hcfalse m hmmem hmtrue hcontra
  obtain ⟨htext, hs, he⟩ := hcontra
  obtain ⟨r, hr, cc, hnot, heq⟩ := mem_flatten_ctx hcmem hcfalse
  obtain ⟨r', hr', rfl⟩ := mem_flatten_match hmmem hmtrue
  have hcc : c.text.drop 2 = cc.1 ∧ c.start_time = cc.2.1 ∧
      c.end_time = cc.2.2 := by
    rcases heq with rfl | rfl <;> exact ⟨rfl, rfl, rfl⟩
  have hsup : isAlsoMatch (matchSegments rs) cc = true := by
    rw [isAlsoMatch_iff]
    refine ⟨(r'.text, r'.start_time, r'.end_time),
      List.mem_map_of_mem _ hr', ?_, ?_, ?_⟩
    · have h1 : cc.1 = r'.text := by
        rw [← hcc.1]
        exact htext
      exact h1.symm
    · rw [durDiff_comm, ← hcc.2.1]
      exact hs
    · rw [durDiff_comm, ← hcc.2.2]
      exact he
  rw [hnot] at hsup
  cases hsup

/-- C5 counterexample: querying `↑` over `c5lines` at depth 1 produces a
context line whose displayed text equals the match line's text with both
times 5 ms apart, so the claimed invariant over `DisplayLine` texts fails;
and at exactly 10 ms with identical raw text nothing is suppressed, so the
inclusive reading of "within 10 ms" fails too. -/
theorem C5_counterexample :
    (flatten_results (filter_results ("↑").data (load_file c5lines ("a.vtt")))
        1).map proj4
      = [(("↑ x").data, 5, 1005, false), (("↑ x").data, 0, 1000, true)] ∧
    spec_noDupInvariant
      (flatten_results (filter_results ("↑").data (load_file c5lines ("a.vtt")))
        1) = false ∧
    isAlsoMatch [(("m").data, 0, 1000)] ((("m").data), 10, 1010) = false ∧
    durDiff 0 10 ≤ 10 := by
  decide

/-- C5 witness: the amended invariant instantiated at the concrete
scenario (the raw entry text `x` differs from the match text `↑ x`). -/
theorem C5_witness :
    c5ctxline ∈ flatten_results
      (filter_results ("↑").data (load_file c5lines ("a.vtt"))) 1 ∧
    c5ctxline.is_match = false ∧
    c5matchline ∈ flatten_results
      (filter_results ("↑").data (load_file c5lines ("a.vtt"))) 1 ∧
    c5matchline.is_match = true ∧
    ¬ (c5ctxline.text.drop 2 = c5matchline.text ∧
        durDiff c5ctxline.start_time c5matchline.start_time < 10 ∧
        durDiff c5ctxline.end_time c5matchline.end_time < 10) :=
  ⟨by decide, rfl, by decide, rfl,
    (C5_amended (filter_results ("↑").data (load_file c5lines ("a.vtt"))) 1).1
      c5ctxline (by decide) rfl c5matchline (by decide) rfl⟩

/-- The backward context scan collects the (at most 5) nearest candidate
entries and stores them in chronological order: the stored list is the
reverse of the nearest-first candidate list truncated to 5. -/
theorem collectBefore_eq (lines : List Str) :
    ∀ (j : Nat) (acc : List Ctx), acc.length ≤ 5 →
      collectBefore lines j acc =
        ((((List.range j).reverse).filterMap (ctxAt lines)).take
            (5 - acc.length)).reverse ++ acc := by
  intro j
  induction j with
  | zero => intro acc _; simp [collectBefore]
  | succ j ih =>
    intro acc hacc
    have hrange : (List.range (j + 1)).reverse = j :: (List.range j).reverse := by
      rw [List.range_succ]
      simp
    unfold collectBefore
    by_cases hlen : acc.length < 5
    · rw [if_pos hlen]
      cases he : ctxAt lines j with
      | none =>
        show collectBefore lines j acc = _
        rw [ih acc hacc, hrange, List.filterMap_cons_none he]
      | some e =>
        show collectBefore lines j (e :: acc) = _
        rw [ih (e :: acc) (by simp [List.length_cons]; omega), hrange,
          List.filterMap_cons_some he]
        have h5 : 5 - acc.length = (5 - (e :: acc).length) + 1 := by
          simp [List.length_cons]
          omega
        rw [h5, List.take_succ_cons]
        simp
    · rw [if_neg hlen]
      have h5 : acc.length = 5 := by omega
      simp [h5]

/-- C4 (amended): for every anchor produced by the loader, the stored
`context_before` list holds the (at most 5) nearest candidate entries in
chronological order — the reverse of the nearest-first candidate list
truncated to 5 — and, for depth `k ≤ 5`, the emitted context-before block
is the `k` nearest candidates in reverse chronological order (nearest to
the segment first), minus suppressed duplicates, marker-prefixed. -/
theorem C4_amended (lines : List Str) (fp : String) (i : Nat)
    (r : SearchResult) (hr : segAt lines fp i = some r) (ms : List Ctx)
    (k : Nat) (hk : k ≤ 5) :
    r.context_before = ((spec_nearestFirstCandidates lines i).take 5).reverse ∧
    beforeBlock ms k r =
      (((spec_nearestFirstCandidates lines i).take k).filter
          (fun c => ! isAlsoMatch ms c)).map (mkUpLine fp) := by
  have hinv : r.context_before = collectBefore lines i [] ∧
      r.file_path = fp := by
    cases hg : lines.get? i with
    | none =>
      simp only [segAt, hg] at hr
      cases hr
    | some li =>
      simp only [segAt, hg] at hr
      split at hr
      · cases hft : findTiming lines i with
        | none =>
          simp only [hft] at hr
          cases hr
        | some tl =>
          simp only [hft] at hr
          cases hpr : parse_time_range tl with
          | none =>
            simp only [hpr] at hr
            cases hr
          | some se =>
            obtain ⟨st, en⟩ := se
            simp only [hpr, Option.some.injEq] at hr
            subst hr
            exact ⟨rfl, rfl⟩
      · exact absurd hr (by simp)
  obtain ⟨hcb, hfp⟩ := hinv
  have hchar := collectBefore_eq lines i [] (by simp)
  simp only [List.length_nil, Nat.sub_zero, List.append_nil] at hchar
  constructor
  · rw [hcb, hchar]
    rfl
  · unfold beforeBlock
    by_cases hk0 : 0 < k
    · rw [if_pos hk0, hcb, hchar, List.reverse_reverse, List.take_take,
        Nat.min_eq_left hk, hfp]
      rfl
    · rw [if_neg hk0]
      have hz : k = 0 := by omega
      subst hz
      simp

/-- C4 counterexample: the stored `context_before` of `c` is chronological
(`a` then `b`), not nearest-first as claimed, and at depth 2 the emitted
context-before block is `b` then `a` — reverse chronological, not oldest
first as claimed; the full flattened list confirms the emitted order. -/
theorem C4_counterexample :
    segAt c4lines ("a.vtt") 6 = some c4r ∧
    c4r.context_before.map (fun c => c.2.1) = [1000, 2000] ∧
    spec_nearestFirstStored c4r.context_before = false ∧
    (beforeBlock (matchSegments [c4r]) 2 c4r).map DisplayLine.start_time
      = [2000, 1000] ∧
    spec_oldestFirst (beforeBlock (matchSegments [c4r]) 2 c4r) = false ∧
    (flatten_results (filter_results ("c").data (load_file c4lines ("a.vtt")))
        2).map DisplayLine.start_time = [2000, 1000, 3000] := by
  decide

/-- C4 witness: the amended characterization instantiated at the concrete
file, anchor 6, and depth 2. -/
theorem C4_witness :
    segAt c4lines ("a.vtt") 6 = some c4r ∧ (2 : Nat) ≤ 5 ∧
    c4r.context_before
      = ((spec_nearestFirstCandidates c4lines 6).take 5).reverse ∧
    beforeBlock (matchSegments [c4r]) 2 c4r =
      (((spec_nearestFirstCandidates c4lines 6).take 2).filter
          (fun c => ! isAlsoMatch (matchSegments [c4r]) c)).map
        (mkUpLine ("a.vtt")) :=
  ⟨by decide, by decide,
    (C4_amended c4lines ("a.vtt") 6 c4r (by decide) (matchSegments [c4r]) 2
      (by decide)).1,
    (C4_amended c4lines ("a.vtt") 6 c4r (by decide) (matchSegments [c4r]) 2
      (by decide)).2⟩
